import Mathlib

/-!
# Verification of the session lifecycle manager in `app/main.py`

A shallow embedding of the session registry, eviction policy, and request
dispatcher of `src/app/main.py` (the Dash API service), together with proofs
of the specified properties.

Modelling conventions:
* `time.monotonic()` values (`now`, `last_used`, TTL) are modelled as `Int`
  (only comparisons and subtraction are used by the code).
* The module-level `OrderedDict[str, _SessionEntry]` is modelled as an
  association list `List (String × Entry)` in the dict's iteration order:
  front of the list = oldest position, back = most recently (re)inserted /
  moved-to-end position.  Python dict keys are unique; theorems that need
  this carry a `Nodup` hypothesis on the keys.
* Each `Conversation` object is identified by a numeric tag `res` so that
  `close()` calls can be counted.
* Locks are modelled two ways: sequentially (a critical section is one
  atomic state transformation) for functional claims, and as explicit
  acquire/release actions in a trace for the lock-discipline claim.
-/

namespace DashSession

/-- Model of `_SessionEntry` (main.py lines 57-83): wraps one conversation
(`res` tags the `Conversation` object), the per-session `lock` (`lockHeld`),
`last_used`, and the `_in_flight` counter. -/
structure Entry where
  res : Nat
  lastUsed : Int
  inFlight : Nat
  lockHeld : Bool := false
deriving Repr, DecidableEq

/-- The module-level `_sessions : OrderedDict[str, _SessionEntry]`, in dict
iteration order (front = oldest position). -/
abbrev Registry := List (String × Entry)

/-- `entry.touch()` (line 69-70): set `last_used` to now. -/
def Entry.touch (e : Entry) (now : Int) : Entry :=
  { e with lastUsed := now }

/-- The TTL-expiry test of the first eviction pass (line 101):
`entry.in_flight == 0 and now - entry.last_used > SESSION_TTL_SECONDS`. -/
def ttlExpired (now ttl : Int) (e : Entry) : Bool :=
  e.inFlight == 0 && decide (now - e.lastUsed > ttl)

/-- TTL pass of `_evict_stale_sessions` (lines 98-108): the `expired` list is
computed from the snapshot, then each listed sid is popped and its
conversation closed.  With unique keys this is exactly a filter; the second
component is the list of closed conversation tags, in registry order. -/
def ttlPass (now ttl : Int) (r : Registry) : Registry × List Nat :=
  (r.filter (fun p => !ttlExpired now ttl p.2),
   (r.filter (fun p => ttlExpired now ttl p.2)).map (fun p => p.2.res))

/-- One iteration of the capacity loop body (lines 113-121): scan
`list(_sessions.items())` in order and pop the FIRST entry with
`in_flight == 0`, returning its conversation tag and the remaining registry;
`none` when every entry is in-flight (the `evicted = False` case). -/
def removeFirstIdle : Registry → Option (Nat × Registry)
  | [] => none
  | p :: rest =>
    if p.2.inFlight == 0 then some (p.2.res, rest)
    else match removeFirstIdle rest with
      | some (c, r') => some (c, p :: r')
      | none => none

/-- The body of the capacity loop, with an explicit iteration bound: each
iteration pops one entry, so `r.length` iterations always suffice — when the
fuel is exhausted the registry is empty and the `while` guard is false
anyway (`capacityLoop_succ_of_ge` below makes this rigorous). -/
def capacityLoop (maxSessions : Nat) : Nat → Registry → Registry × List Nat
  | 0, r => (r, [])
  | fuel + 1, r =>
    if r.length > maxSessions then
      match removeFirstIdle r with
      | some cr =>
        ((capacityLoop maxSessions fuel cr.2).1,
         cr.1 :: (capacityLoop maxSessions fuel cr.2).2)
      | none => (r, [])
    else (r, [])

/-- Capacity pass of `_evict_stale_sessions` (lines 110-123):
`while len(_sessions) > MAX_SESSIONS`, pop the first idle entry (closing its
conversation); stop if none exists (`evicted = False` → `break`).  Returns
the surviving registry and the closed conversation tags in eviction
order. -/
def capacityPass (maxSessions : Nat) (r : Registry) : Registry × List Nat :=
  capacityLoop maxSessions r.length r

/-- `_evict_stale_sessions()` (lines 90-123): TTL pass then capacity pass,
both under `_sessions_lock`.  Returns the surviving registry together with
all conversation tags closed during the run. -/
def evictStale (now ttl : Int) (maxSessions : Nat) (r : Registry) :
    Registry × List Nat :=
  ((capacityPass maxSessions (ttlPass now ttl r).1).1,
   (ttlPass now ttl r).2 ++ (capacityPass maxSessions (ttlPass now ttl r).1).2)

/-- `sid in _sessions`: key membership in the ordered dict. -/
def hasKey (sid : String) (r : Registry) : Bool :=
  r.any (fun p => p.1 == sid)

/-- Look up the entry bound to `sid` (unique when keys are nodup). -/
def findEntry (sid : String) (r : Registry) : Option Entry :=
  (r.find? (fun p => p.1 == sid)).map (·.2)

/-- `_sessions.move_to_end(sid)` (line 144): remove the binding of `sid` and
re-append it at the most-recently-used end; order of other keys preserved. -/
def moveToEnd (sid : String) (r : Registry) : Registry :=
  match findEntry sid r with
  | none => r
  | some e => r.filter (fun p => !(p.1 == sid)) ++ [(sid, e)]

/-- Update the entry bound to `sid` in place (the Python entry is a shared
mutable object; dict position is unchanged). -/
def updateEntry (sid : String) (f : Entry → Entry) (r : Registry) : Registry :=
  r.map (fun p => if p.1 == sid then (p.1, f p.2) else p)

/-- `_sessions[sid] = entry` (line 170): Python dict assignment replaces the
value of an existing key in place, otherwise appends at the end. -/
def insertOrReplace (sid : String) (e : Entry) (r : Registry) : Registry :=
  if hasKey sid r then r.map (fun p => if p.1 == sid then (sid, e) else p)
  else r ++ [(sid, e)]

/-- Python truthiness of `session_id : str | None`: `if session_id:` is false
for `None` and for the empty string (lines 142 and 150). -/
def truthy : Option String → Bool
  | none => false
  | some s => !(s == "")

/-- Result of `_get_or_create_session`: the returned session id, or the
`HTTPException(400)` raised for a malformed id (line 154). -/
inductive GocResult where
  | ok (sid : String)
  | invalidArg
deriving Repr, DecidableEq

/-- `_get_or_create_session(session_id)` (lines 137-172), sequentially
(one caller at a time).  Parameters standing for external collaborators:
`validUUID` models `uuid.UUID(session_id)` succeeding (line 152);
`newRes` tags the `Conversation` object the factory returns (lines 156-161);
`newSid` is the id the new conversation reports when the caller supplied
none (`str(conv.conversation_id)`, line 166; when a valid `session_id` was
supplied the constructor receives it as `conversation_id` and reports it
back).  Returns (new registry, conversations closed by the eviction pass,
result). -/
def getOrCreate (validUUID : String → Bool) (newRes : Nat) (newSid : String)
    (now ttl : Int) (maxSessions : Nat) (sessionId : Option String)
    (r : Registry) : Registry × List Nat × GocResult :=
  -- line 139: _evict_stale_sessions()
  let r1 := (evictStale now ttl maxSessions r).1
  let closed := (evictStale now ttl maxSessions r).2
  -- lines 141-146: fast path under _sessions_lock
  if truthy sessionId && hasKey (sessionId.getD "") r1 then
    let sid := sessionId.getD ""
    (updateEntry sid (fun e => e.touch now) (moveToEnd sid r1), closed,
     .ok sid)
  else
    -- lines 149-154: validate the supplied id before the factory runs
    if truthy sessionId && !validUUID (sessionId.getD "") then
      (r1, closed, .invalidArg)
    else
      -- lines 156-167: factory call outside the lock, new entry with
      -- last_used = now (set by the _SessionEntry constructor)
      let sid := if truthy sessionId then sessionId.getD "" else newSid
      let entry : Entry := { res := newRes, lastUsed := now, inFlight := 0 }
      -- lines 169-170: insertion under _sessions_lock
      (insertOrReplace sid entry r1, closed, .ok sid)

/-! ## Request dispatcher (`chat`, lines 220-248) -/

/-- Outcome of the critical section's body
(`send_message` + `run` + `get_agent_final_response`, lines 231-233):
either a reply string or a raised exception message. -/
inductive BodyOutcome where
  | success (reply : String)
  | failure (msg : String)
deriving Repr, DecidableEq

/-- `_run_sync` (lines 225-235) as a transformation of the session entry:
`acquire_flight()`; `with entry.lock:` acquire the per-session mutex,
`touch()`, run the body; the `with` statement releases the mutex on exit
(success or exception) and the `finally:` releases the flight counter
unconditionally.  The thread runs the whole of this to completion even when
the awaiting caller has timed out (cooperative timeout, nothing cancels the
thread). -/
def runSync (now : Int) (e : Entry) (body : BodyOutcome) :
    Entry × BodyOutcome :=
  let e1 := { e with inFlight := e.inFlight + 1 }      -- acquire_flight()
  let e2 := { e1 with lockHeld := true }               -- with entry.lock:
  let e3 := e2.touch now                                -- entry.touch()
  let e4 := { e3 with lockHeld := false }              -- lock released
  let e5 := { e4 with inFlight := e4.inFlight - 1 }    -- release_flight()
  (e5, body)

/-- Result of the `chat` endpoint: `ChatResponse`, `HTTPException(400)` from
`_get_or_create_session`, or `HTTPException(504)` on timeout (lines 242-246);
a body exception propagates as a service error. -/
inductive ChatResult where
  | ok (reply sid : String)
  | invalidArg
  | timeout
  | resourceErr (msg : String)
deriving Repr, DecidableEq

/-- The `chat` endpoint (lines 220-248).  `timedOut` records whether
`asyncio.wait_for` hit `CHAT_TIMEOUT_SECONDS` before `_run_sync` finished;
the worker thread is not cancelled, so the entry state reflects the
completed `_run_sync` in every case, and on timeout only the response to
the caller differs.  The returned registry is the state once that thread
has completed. -/
def chatEndpoint (validUUID : String → Bool) (newRes : Nat) (newSid : String)
    (now ttl : Int) (maxSessions : Nat) (sessionId : Option String)
    (body : BodyOutcome) (timedOut : Bool) (r : Registry) :
    Registry × ChatResult :=
  match getOrCreate validUUID newRes newSid now ttl maxSessions sessionId r with
  | (r1, _, .invalidArg) => (r1, .invalidArg)
  | (r1, _, .ok sid) =>
    match findEntry sid r1 with
    | none => (r1, .resourceErr "missing entry")  -- unreachable after .ok
    | some e =>
      let r2 := updateEntry sid (fun _ => (runSync now e body).1) r1
      if timedOut then (r2, .timeout)
      else match (runSync now e body).2 with
        | .success reply => (r2, .ok reply sid)
        | .failure msg => (r2, .resourceErr msg)

/-! ## `get_session` endpoint (lines 258-273) -/

/-- Result of `GET /sessions/sid`: the session info, 404, or 400. -/
inductive SessionStatus where
  | exists_ (sid : String)
  | notFound
  | invalidArg
deriving Repr, DecidableEq

/-- `get_session(session_id)` (lines 258-273).  `validUUID` models
`uuid.UUID(session_id)` succeeding; `persistExists` models
`Path(Conversation.get_persistence_dir(PERSISTENCE_DIR, conv_id)).exists()`
for the parsed id.  The handler's only registry access is the membership
test `session_id in _sessions` (line 262), which reads the dict without
changing its contents or order, so the registry component of the result is
the input registry itself. -/
def getSession (validUUID : String → Bool) (persistExists : String → Bool)
    (sessionId : String) (r : Registry) : Registry × SessionStatus :=
  if hasKey sessionId r then (r, .exists_ sessionId)
  else if !validUUID sessionId then (r, .invalidArg)
  else if !persistExists sessionId then (r, .notFound)
  else (r, .exists_ sessionId)

/-! ## Shutdown (`_close_all_sessions`, lines 126-134) -/

/-- `_close_all_sessions()`: under `_sessions_lock`, close every
conversation (errors logged and swallowed) and clear the map. -/
def closeAll (r : Registry) : Registry × List Nat :=
  ([], r.map (fun p => p.2.res))

/-! ## The creation race (`_get_or_create_session`, two concurrent callers)

Lines 148-172 run outside `_sessions_lock`: two callers that both miss the
fast path for the same supplied absent id each construct a `Conversation`
and then insert under the lock, the second assignment overwriting the
first.  `raceCreate` executes this interleaving: caller 1 runs lines
139-154 and the factory, caller 2 runs the same (caller 1 has not yet
inserted, so caller 2 also misses the fast path — eviction only removes
keys, so `sid` is still absent), then the two insertions happen in order.
The code's only `close()` calls are the eviction passes' (lines 106, 117);
nothing closes the displaced entry. -/

def raceCreate (validUUID : String → Bool) (sid : String) (res1 res2 : Nat)
    (now1 now2 ttl : Int) (maxSessions : Nat) (r : Registry) :
    Registry × List Nat × GocResult × GocResult :=
  let rA := (evictStale now1 ttl maxSessions r).1
  let c1 := (evictStale now1 ttl maxSessions r).2
  if hasKey sid rA then
    -- no race: caller 1 finds the id and takes the fast path, then caller 2
    let rA' := updateEntry sid (fun e => e.touch now1) (moveToEnd sid rA)
    (updateEntry sid (fun e => e.touch now2)
       (moveToEnd sid (evictStale now2 ttl maxSessions rA').1),
     c1 ++ (evictStale now2 ttl maxSessions rA').2, .ok sid, .ok sid)
  else if !validUUID sid then
    ((evictStale now2 ttl maxSessions rA).1,
     c1 ++ (evictStale now2 ttl maxSessions rA).2, .invalidArg, .invalidArg)
  else
    let rB := (evictStale now2 ttl maxSessions rA).1
    let c2 := (evictStale now2 ttl maxSessions rA).2
    let e1 : Entry := { res := res1, lastUsed := now1, inFlight := 0 }
    let e2 : Entry := { res := res2, lastUsed := now2, inFlight := 0 }
    let rC := insertOrReplace sid e1 rB
    let rD := insertOrReplace sid e2 rC
    (rD, c1 ++ c2, .ok sid, .ok sid)

/-! ## Reachable registry states

Small-step semantics over the registry: each operation is one code action
on `_sessions` or on one entry, at the granularity at which the locks
actually serialize them.  `bgTouch` is the `entry.touch()` at line 230,
performed by the `_run_sync` worker while holding only `entry.lock` — it
updates `last_used` but does NOT `move_to_end`, so it may interleave with
other sessions' fast paths. -/

inductive Op where
  | create (sid : String) (res : Nat) (t : Int)
  | reuse (sid : String) (t : Int)
  | bgTouch (sid : String) (t : Int)
  | acqFlight (sid : String)
  | relFlight (sid : String)
  | evictNow (t : Int)
deriving Repr, DecidableEq

/-- Apply one operation (TTL and capacity bound fixed for the process). -/
def applyOp (ttl : Int) (maxSessions : Nat) : Op → Registry → Registry
  | .create sid res t, r =>
      insertOrReplace sid { res := res, lastUsed := t, inFlight := 0 } r
  | .reuse sid t, r =>
      if hasKey sid r then updateEntry sid (fun e => e.touch t) (moveToEnd sid r)
      else r
  | .bgTouch sid t, r => updateEntry sid (fun e => e.touch t) r
  | .acqFlight sid, r =>
      updateEntry sid (fun e => { e with inFlight := e.inFlight + 1 }) r
  | .relFlight sid, r =>
      updateEntry sid (fun e => { e with inFlight := e.inFlight - 1 }) r
  | .evictNow t, r => (evictStale t ttl maxSessions r).1

def runOps (ttl : Int) (maxSessions : Nat) (ops : List Op) (r : Registry) :
    Registry :=
  ops.foldl (fun s op => applyOp ttl maxSessions op s) r

/-- A registry state the running service can be in: produced from the empty
registry by some sequence of code operations. -/
def Reachable (ttl : Int) (maxSessions : Nat) (s : Registry) : Prop :=
  ∃ ops : List Op, runOps ttl maxSessions ops [] = s

/-- The entry (first in dict order) that the capacity loop's scan selects:
`removeFirstIdle` pops exactly this pair. -/
def firstIdle (r : Registry) : Option (String × Entry) :=
  r.find? (fun p => p.2.inFlight == 0)

/-- One step of the spec-rule fold: keep the candidate with the strictly
smaller `lastUsed`; on a tie keep the incumbent (the earlier-positioned
entry). -/
def lruStep (acc : Option (String × Entry)) (p : String × Entry) :
    Option (String × Entry) :=
  match acc with
  | none => some p
  | some q => if p.2.lastUsed < q.2.lastUsed then some p else some q

/-- Modelled from the spec's words (the claimed capacity-pass selection
rule, for comparison with the code's `removeFirstIdle`): among entries with
`inFlight == 0`, the one whose `lastUsed` is strictly smallest, ties broken
by earlier registry position (insertion order). -/
def specLruSelect (r : Registry) : Option (String × Entry) :=
  (r.filter (fun p => p.2.inFlight == 0)).foldl lruStep none

/-! ## Lock-discipline traces

Each service routine is given an action trace at the granularity of
`_sessions_lock` acquire/release, `conversation.close()` calls, the
`Conversation(...)` factory call, and the `send_message`/`run` critical
section, in the order the code performs them. -/

inductive Act where
  | acqS | relS
  | close (res : Nat)
  | factory
  | sendRun
deriving Repr, DecidableEq

/-- Trace of `_evict_stale_sessions` (lines 90-123): one `with
_sessions_lock:` block containing every pop and every `close()`. -/
def evictTraceA (now ttl : Int) (maxSessions : Nat) (r : Registry) :
    List Act :=
  [Act.acqS] ++ ((evictStale now ttl maxSessions r).2.map Act.close)
    ++ [Act.relS]

/-- Trace of `_close_all_sessions` (lines 126-134): one `with
_sessions_lock:` block containing every `close()`. -/
def closeAllTraceA (r : Registry) : List Act :=
  [Act.acqS] ++ ((closeAll r).2.map Act.close) ++ [Act.relS]

/-- Trace of `_get_or_create_session` (lines 137-172): the eviction trace,
the fast-path lock section (lines 141-146), and — when a new session is
created — the factory call outside any lock followed by the insertion lock
section (lines 169-170). -/
def getOrCreateTraceA (validUUID : String → Bool) (now ttl : Int)
    (maxSessions : Nat) (sessionId : Option String) (r : Registry) :
    List Act :=
  evictTraceA now ttl maxSessions r ++ [Act.acqS, Act.relS] ++
    (let r1 := (evictStale now ttl maxSessions r).1
     if truthy sessionId && hasKey (sessionId.getD "") r1 then []
     else if truthy sessionId && !validUUID (sessionId.getD "") then []
     else [Act.factory, Act.acqS, Act.relS])

/-- Trace of the `chat` endpoint (lines 220-248): `_get_or_create_session`,
then — unless it raised — `_run_sync`'s `send_message`/`run` under
`entry.lock` only (the structural lock is not taken there). -/
def chatTraceA (validUUID : String → Bool) (now ttl : Int)
    (maxSessions : Nat) (sessionId : Option String) (r : Registry) :
    List Act :=
  getOrCreateTraceA validUUID now ttl maxSessions sessionId r ++
    (let r1 := (evictStale now ttl maxSessions r).1
     if truthy sessionId && !hasKey (sessionId.getD "") r1
        && !validUUID (sessionId.getD "") then []
     else [Act.sendRun])

/-- The actions performed while `_sessions_lock` is held (depth `d > 0`),
excluding the acquire/release actions themselves. -/
def underLock : List Act → Nat → List Act
  | [], _ => []
  | Act.acqS :: rest, d => underLock rest (d + 1)
  | Act.relS :: rest, d => underLock rest (d - 1)
  | a :: rest, d => (if d > 0 then [a] else []) ++ underLock rest d

/-! ## Concrete states used to settle the claims -/

/-- Number of bindings of `sid` in the registry (1 everywhere, since the
dict has unique keys). -/
def countKey (sid : String) (r : Registry) : Nat :=
  (r.filter (fun p => p.1 == sid)).length

/-- A registry holding one idle session, conversation tag 1, last used at
time 0. -/
def staleReg : Registry := [("A", { res := 1, lastUsed := 0, inFlight := 0 })]

/-- An operation sequence the running service can perform (ttl 100, max 1):
sessions A and B are created; a `chat` on A passes the fast path
(`move_to_end` + touch at t=2) and its worker enters flight; while that
worker still runs, a `chat` on B passes the fast path (t=3); only then does
A's worker reach the `entry.touch()` at line 230 (t=4, under `entry.lock`
only — no reordering) and finish.  All steps interleave legally: the
structural lock and `entry.lock` are distinct. -/
def c2Ops : List Op :=
  [.create "A" 1 0, .create "B" 2 1, .reuse "A" 2, .acqFlight "A",
   .reuse "B" 3, .bgTouch "A" 4, .relFlight "A"]

/-- The state `c2Ops` produces: dict order `A, B`, but A's `last_used` (4)
is larger than B's (3); both idle. -/
def c2State : Registry :=
  [("A", { res := 1, lastUsed := 4, inFlight := 0 }),
   ("B", { res := 2, lastUsed := 3, inFlight := 0 })]

/-! ## Helper lemmas -/

theorem removeFirstIdle_none_iff (r : Registry) :
    removeFirstIdle r = none ↔ ∀ p ∈ r, p.2.inFlight ≠ 0 := by
  induction r with
  | nil => simp [removeFirstIdle]
  | cons p rest ih =>
    by_cases hp : p.2.inFlight = 0
    · have hb : (p.2.inFlight == 0) = true := by simpa using hp
      simp only [removeFirstIdle, hb, if_true]
      constructor
      · intro h; cases h
      · intro h; exact absurd hp (h p (List.mem_cons_self p rest))
    · have hb : (p.2.inFlight == 0) = false := by simpa using hp
      simp only [removeFirstIdle, hb, if_false]
      cases hrec : removeFirstIdle rest with
      | none =>
        simp only [List.mem_cons]
        constructor
        · intro _ q hq
          rcases hq with hq | hq
          · subst hq; exact hp
          · exact (ih.mp hrec) q hq
        · intro _; rfl
      | some cr =>
        obtain ⟨c0, r0⟩ := cr
        simp only [List.mem_cons]
        constructor
        · intro h; simp at h
        · intro h
          have : removeFirstIdle rest = none :=
            ih.mpr (fun q hq => h q (Or.inr hq))
          rw [this] at hrec; cases hrec

/-- Structure of a successful `removeFirstIdle`: the registry splits as an
in-flight prefix, the popped idle entry, and the untouched suffix. -/
theorem removeFirstIdle_some_spec {r : Registry} {c : Nat} {r' : Registry}
    (h : removeFirstIdle r = some (c, r')) :
    ∃ l1 q l2, r = l1 ++ q :: l2 ∧ r' = l1 ++ l2 ∧ q.2.inFlight = 0 ∧
      q.2.res = c ∧ ∀ p ∈ l1, p.2.inFlight ≠ 0 := by
  induction r generalizing c r' with
  | nil => simp [removeFirstIdle] at h
  | cons p rest ih =>
    by_cases hp : p.2.inFlight == 0
    · simp [removeFirstIdle, hp] at h
      exact ⟨[], p, rest, by simp, by simp [h.2], by simpa using hp,
        h.1, by simp⟩
    · simp only [removeFirstIdle, hp, if_false] at h
      cases hrec : removeFirstIdle rest with
      | none => simp [hrec] at h
      | some cr =>
        obtain ⟨c0, r0⟩ := cr
        rw [hrec] at h
        simp at h
        obtain ⟨hc, hr⟩ := h
        obtain ⟨l1, q, l2, h1, h2, h3, h4, h5⟩ := ih hrec
        refine ⟨p :: l1, q, l2, by simp [h1], by simp [← hr, h2], h3,
          hc ▸ h4, ?_⟩
        intro x hx
        rcases List.mem_cons.mp hx with hx | hx
        · subst hx; simpa using hp
        · exact h5 x hx

theorem removeFirstIdle_length {r : Registry} {cr : Nat × Registry}
    (h : removeFirstIdle r = some cr) : cr.2.length + 1 = r.length := by
  obtain ⟨l1, q, l2, h1, h2, _, _, _⟩ := removeFirstIdle_some_spec h
  rw [h1, h2]
  simp
  omega

theorem capacityLoop_succ (m fuel : Nat) (r : Registry) :
    capacityLoop m (fuel + 1) r =
      if r.length > m then
        match removeFirstIdle r with
        | some cr =>
          ((capacityLoop m fuel cr.2).1,
           cr.1 :: (capacityLoop m fuel cr.2).2)
        | none => (r, [])
      else (r, []) := rfl

/-- Fuel adequacy: with at least `r.length` fuel, one more unit changes
nothing — each loop iteration pops one entry, so the `while` loop of
lines 111-123 can iterate at most `r.length` times. -/
theorem capacityLoop_succ_of_ge (m : Nat) :
    ∀ (fuel : Nat) (r : Registry), r.length ≤ fuel →
      capacityLoop m (fuel + 1) r = capacityLoop m fuel r := by
  intro fuel
  induction fuel with
  | zero =>
    intro r hr
    have : r = [] := List.length_eq_zero.mp (Nat.le_zero.mp hr)
    subst this
    rw [capacityLoop_succ]
    simp [capacityLoop]
  | succ fuel ih =>
    intro r hr
    rw [capacityLoop_succ, capacityLoop_succ]
    by_cases hlen : r.length > m
    · rw [if_pos hlen, if_pos hlen]
      cases hrem : removeFirstIdle r with
      | some cr =>
        have hcr : cr.2.length ≤ fuel := by
          have := removeFirstIdle_length hrem
          omega
        simp only [ih cr.2 hcr]
      | none => simp only
    · rw [if_neg hlen, if_neg hlen]

theorem capacityLoop_subset (m : Nat) :
    ∀ (fuel : Nat) (r : Registry), ∀ p ∈ (capacityLoop m fuel r).1, p ∈ r := by
  intro fuel
  induction fuel with
  | zero => intro r p hp; exact hp
  | succ fuel ih =>
    intro r p hp
    rw [capacityLoop_succ] at hp
    by_cases hlen : r.length > m
    · rw [if_pos hlen] at hp
      cases hrem : removeFirstIdle r with
      | some cr =>
        simp only [hrem] at hp
        have hpcr := ih cr.2 p hp
        obtain ⟨l1, q, l2, h1, h2, _, _, _⟩ := removeFirstIdle_some_spec hrem
        rw [h1]
        rw [h2] at hpcr
        rcases List.mem_append.mp hpcr with h | h
        · exact List.mem_append.mpr (Or.inl h)
        · exact List.mem_append.mpr (Or.inr (List.mem_cons.mpr (Or.inr h)))
      | none => simp only [hrem] at hp; exact hp
    · rw [if_neg hlen] at hp
      exact hp

theorem capacityLoop_keeps (m : Nat) :
    ∀ (fuel : Nat) (r : Registry) (p : String × Entry), p ∈ r →
      p.2.inFlight ≠ 0 → p ∈ (capacityLoop m fuel r).1 := by
  intro fuel
  induction fuel with
  | zero => intro r p hp _; exact hp
  | succ fuel ih =>
    intro r p hp hf
    rw [capacityLoop_succ]
    by_cases hlen : r.length > m
    · rw [if_pos hlen]
      cases hrem : removeFirstIdle r with
      | some cr =>
        simp only
        obtain ⟨l1, q, l2, h1, h2, h3, _, _⟩ := removeFirstIdle_some_spec hrem
        have hpcr : p ∈ cr.2 := by
          rw [h2]
          rw [h1] at hp
          rcases List.mem_append.mp hp with h | h
          · exact List.mem_append.mpr (Or.inl h)
          · rcases List.mem_cons.mp h with h | h
            · exact absurd (h ▸ h3) hf
            · exact List.mem_append.mpr (Or.inr h)
        exact ih cr.2 p hpcr hf
      | none => simp only; exact hp
    · rw [if_neg hlen]
      exact hp

theorem capacityLoop_closed (m : Nat) :
    ∀ (fuel : Nat) (r : Registry), ∀ c ∈ (capacityLoop m fuel r).2,
      ∃ p, p ∈ r ∧ p.2.res = c ∧ p.2.inFlight = 0 := by
  intro fuel
  induction fuel with
  | zero => intro r c hc; simp [capacityLoop] at hc
  | succ fuel ih =>
    intro r c hc
    rw [capacityLoop_succ] at hc
    by_cases hlen : r.length > m
    · rw [if_pos hlen] at hc
      cases hrem : removeFirstIdle r with
      | some cr =>
        simp only [hrem] at hc
        obtain ⟨l1, q, l2, h1, h2, h3, h4, _⟩ := removeFirstIdle_some_spec hrem
        rcases List.mem_cons.mp hc with hc | hc
        · exact ⟨q, by rw [h1]; simp, hc ▸ h4, h3⟩
        · obtain ⟨p, hp1, hp2, hp3⟩ := ih cr.2 c hc
          refine ⟨p, ?_, hp2, hp3⟩
          rw [h1]
          rw [h2] at hp1
          rcases List.mem_append.mp hp1 with h | h
          · exact List.mem_append.mpr (Or.inl h)
          · exact List.mem_append.mpr (Or.inr (List.mem_cons.mpr (Or.inr h)))
      | none => simp only [hrem] at hc; simp at hc
    · rw [if_neg hlen] at hc
      simp at hc

theorem capacityLoop_post (m : Nat) :
    ∀ (fuel : Nat) (r : Registry), r.length ≤ fuel →
      (capacityLoop m fuel r).1.length ≤ m ∨
        ∀ p ∈ (capacityLoop m fuel r).1, p.2.inFlight ≠ 0 := by
  intro fuel
  induction fuel with
  | zero =>
    intro r hr
    exact Or.inl (Nat.le_trans (Nat.le_zero.mp hr).le (Nat.zero_le m))
  | succ fuel ih =>
    intro r hr
    rw [capacityLoop_succ]
    by_cases hlen : r.length > m
    · rw [if_pos hlen]
      cases hrem : removeFirstIdle r with
      | some cr =>
        simp only
        have hcr : cr.2.length ≤ fuel := by
          have := removeFirstIdle_length hrem
          omega
        exact ih cr.2 hcr
      | none =>
        simp only
        exact Or.inr ((removeFirstIdle_none_iff r).mp hrem)
    · rw [if_neg hlen]
      exact Or.inl (Nat.not_lt.mp hlen)

theorem capacityPass_eq_of_le {m : Nat} {r : Registry} (h : ¬r.length > m) :
    capacityPass m r = (r, []) := by
  unfold capacityPass
  cases hn : r.length with
  | zero => rfl
  | succ n =>
    rw [capacityLoop_succ]
    rw [hn] at h
    rw [hn, if_neg h]

theorem capacityPass_subset (m : Nat) (r : Registry) :
    ∀ p ∈ (capacityPass m r).1, p ∈ r :=
  capacityLoop_subset m r.length r

theorem capacityPass_keeps {m : Nat} {r : Registry} {p : String × Entry}
    (hp : p ∈ r) (hf : p.2.inFlight ≠ 0) : p ∈ (capacityPass m r).1 :=
  capacityLoop_keeps m r.length r p hp hf

theorem capacityPass_closed (m : Nat) (r : Registry) :
    ∀ c ∈ (capacityPass m r).2,
      ∃ p, p ∈ r ∧ p.2.res = c ∧ p.2.inFlight = 0 :=
  capacityLoop_closed m r.length r

theorem ttlExpired_iff (now ttl : Int) (e : Entry) :
    ttlExpired now ttl e = true ↔
      (e.inFlight = 0 ∧ now - e.lastUsed > ttl) := by
  simp [ttlExpired]

theorem ttlPass_mem_iff (now ttl : Int) (r : Registry) (p : String × Entry) :
    p ∈ (ttlPass now ttl r).1 ↔
      p ∈ r ∧ ¬(p.2.inFlight = 0 ∧ now - p.2.lastUsed > ttl) := by
  simp only [ttlPass, List.mem_filter, Bool.not_eq_true']
  constructor
  · rintro ⟨h1, h2⟩
    exact ⟨h1, fun hc => by
      simp [(ttlExpired_iff now ttl p.2).mpr hc] at h2⟩
  · rintro ⟨h1, h2⟩
    refine ⟨h1, ?_⟩
    cases hb : ttlExpired now ttl p.2
    · rfl
    · exact absurd ((ttlExpired_iff now ttl p.2).mp hb) h2

theorem ttlPass_closed_iff (now ttl : Int) (r : Registry) (c : Nat) :
    c ∈ (ttlPass now ttl r).2 ↔
      ∃ p, p ∈ r ∧ p.2.res = c ∧ p.2.inFlight = 0 ∧
        now - p.2.lastUsed > ttl := by
  simp only [ttlPass, List.mem_map, List.mem_filter]
  constructor
  · rintro ⟨p, ⟨hp, hexp⟩, hres⟩
    obtain ⟨hz, hl⟩ := (ttlExpired_iff now ttl p.2).mp hexp
    exact ⟨p, hp, hres, hz, hl⟩
  · rintro ⟨p, hp, hres, hz, hl⟩
    exact ⟨p, ⟨hp, (ttlExpired_iff now ttl p.2).mpr ⟨hz, hl⟩⟩, hres⟩

theorem ttlPass_length_le (now ttl : Int) (r : Registry) :
    (ttlPass now ttl r).1.length ≤ r.length :=
  List.length_filter_le _ _

theorem evictStale_fst (now ttl : Int) (m : Nat) (r : Registry) :
    (evictStale now ttl m r).1 = (capacityPass m (ttlPass now ttl r).1).1 :=
  rfl

theorem evictStale_subset (now ttl : Int) (m : Nat) (r : Registry) :
    ∀ p ∈ (evictStale now ttl m r).1, p ∈ r := by
  intro p hp
  rw [evictStale_fst] at hp
  exact ((ttlPass_mem_iff now ttl r p).mp
    (capacityPass_subset m _ p hp)).1

theorem evictStale_keeps {now ttl : Int} {m : Nat} {r : Registry}
    {p : String × Entry} (hp : p ∈ r) (hf : p.2.inFlight ≠ 0) :
    p ∈ (evictStale now ttl m r).1 := by
  rw [evictStale_fst]
  exact capacityPass_keeps
    ((ttlPass_mem_iff now ttl r p).mpr ⟨hp, fun hc => hf hc.1⟩) hf

theorem evictStale_closed (now ttl : Int) (m : Nat) (r : Registry) :
    ∀ c ∈ (evictStale now ttl m r).2,
      ∃ p, p ∈ r ∧ p.2.res = c ∧ p.2.inFlight = 0 := by
  intro c hc
  rcases List.mem_append.mp hc with h | h
  · obtain ⟨p, hp, hres, hz, _⟩ := (ttlPass_closed_iff now ttl r c).mp h
    exact ⟨p, hp, hres, hz⟩
  · obtain ⟨p, hp, hres, hz⟩ := capacityPass_closed m _ c h
    exact ⟨p, ((ttlPass_mem_iff now ttl r p).mp hp).1, hres, hz⟩

theorem capacityPass_post (m : Nat) (r : Registry) :
    (capacityPass m r).1.length ≤ m ∨
      ∀ p ∈ (capacityPass m r).1, p.2.inFlight ≠ 0 :=
  capacityLoop_post m r.length r (Nat.le_refl _)

theorem hasKey_iff_exists (sid : String) (r : Registry) :
    hasKey sid r = true ↔ ∃ e, (sid, e) ∈ r := by
  simp only [hasKey, List.any_eq_true, beq_iff_eq]
  constructor
  · rintro ⟨⟨k, e⟩, hp, rfl⟩
    exact ⟨e, hp⟩
  · rintro ⟨e, he⟩
    exact ⟨(sid, e), he, rfl⟩

theorem findEntry_mem {sid : String} {r : Registry} {e : Entry}
    (h : findEntry sid r = some e) : (sid, e) ∈ r := by
  unfold findEntry at h
  cases hf : r.find? (fun p => p.1 == sid) with
  | none => rw [hf] at h; cases h
  | some q =>
    rw [hf] at h
    have hq := List.find?_some hf
    have hm : q ∈ r := List.mem_of_find?_eq_some hf
    obtain ⟨k, e0⟩ := q
    simp at hq h
    subst hq
    subst h
    exact hm

theorem findEntry_isSome (sid : String) (r : Registry) :
    (findEntry sid r).isSome = hasKey sid r := by
  induction r with
  | nil => rfl
  | cons p rest ih =>
    cases hp : (p.1 == sid) with
    | true => simp [findEntry, hasKey, List.find?_cons, List.any_cons, hp]
    | false =>
      simp only [findEntry, hasKey, List.find?_cons, List.any_cons, hp,
        Bool.false_or]
      simpa [findEntry, hasKey] using ih

theorem hasKey_of_findEntry {sid : String} {r : Registry} {e : Entry}
    (h : findEntry sid r = some e) : hasKey sid r = true := by
  rw [← findEntry_isSome, h]
  rfl

theorem findEntry_of_hasKey {sid : String} {r : Registry}
    (h : hasKey sid r = true) : ∃ e, findEntry sid r = some e := by
  rw [← findEntry_isSome] at h
  cases hf : findEntry sid r with
  | none => rw [hf] at h; cases h
  | some e => exact ⟨e, rfl⟩

theorem hasKey_updateEntry (sid' sid : String) (f : Entry → Entry)
    (r : Registry) :
    hasKey sid' (updateEntry sid f r) = hasKey sid' r := by
  simp only [hasKey, updateEntry, List.any_map]
  congr 1
  funext p
  by_cases hp : p.1 == sid <;> simp [Function.comp, hp]

theorem findEntry_updateEntry_self (sid : String) (f : Entry → Entry)
    (r : Registry) :
    findEntry sid (updateEntry sid f r) = (findEntry sid r).map f := by
  induction r with
  | nil => rfl
  | cons p rest ih =>
    cases hp : (p.1 == sid) with
    | true =>
      have hps : p.1 = sid := by simpa using hp
      subst hps
      simp [findEntry, updateEntry, List.find?_cons]
    | false =>
      simp only [updateEntry, List.map_cons, hp, Bool.false_eq_true,
        if_false, findEntry, List.find?_cons]
      simpa [findEntry, updateEntry] using ih

theorem findEntry_filter_ne (sid : String) (r : Registry) :
    findEntry sid (r.filter (fun p => !(p.1 == sid))) = none := by
  unfold findEntry
  rw [List.find?_eq_none.mpr]
  · rfl
  · intro p hp
    have := (List.mem_filter.mp hp).2
    simpa using this

theorem findEntry_moveToEnd_self {sid : String} {r : Registry} {e : Entry}
    (h : findEntry sid r = some e) :
    findEntry sid (moveToEnd sid r) = some e := by
  unfold moveToEnd
  rw [h]
  unfold findEntry
  rw [List.find?_append]
  have hnone : (r.filter (fun p => !(p.1 == sid))).find?
      (fun p => p.1 == sid) = none := by
    rw [List.find?_eq_none]
    intro p hp
    have := (List.mem_filter.mp hp).2
    simpa using this
  rw [hnone]
  simp [List.find?_cons]

theorem findEntry_append_right {sid : String} {r : Registry} {l : Registry}
    (h : hasKey sid r = false) :
    findEntry sid (r ++ l) = findEntry sid l := by
  unfold findEntry
  rw [List.find?_append]
  have hnone : r.find? (fun p => p.1 == sid) = none := by
    rw [List.find?_eq_none]
    intro p hp hcontra
    have : hasKey sid r = true := by
      simp only [hasKey, List.any_eq_true]
      exact ⟨p, hp, hcontra⟩
    rw [this] at h; cases h
  rw [hnone]
  rfl

theorem map_replace_of_not_hasKey {sid : String} {e : Entry} {r : Registry}
    (h : hasKey sid r = false) :
    r.map (fun p => if p.1 == sid then (sid, e) else p) = r := by
  have hkeys : ∀ p ∈ r, (p.1 == sid) = false := by
    intro p hp
    cases hc : (p.1 == sid) with
    | false => rfl
    | true =>
      have : hasKey sid r = true := by
        simp only [hasKey, List.any_eq_true]
        exact ⟨p, hp, hc⟩
      rw [this] at h; cases h
  have hmap : r.map (fun p => if p.1 == sid then (sid, e) else p) =
      r.map id :=
    List.map_congr_left (fun p hp => by simp [hkeys p hp])
  rw [hmap, List.map_id]

theorem insertOrReplace_absent {sid : String} {e : Entry} {r : Registry}
    (h : hasKey sid r = false) :
    insertOrReplace sid e r = r ++ [(sid, e)] := by
  unfold insertOrReplace
  rw [h]
  rfl

theorem hasKey_append_single (sid : String) (r : Registry) (e : Entry) :
    hasKey sid (r ++ [(sid, e)]) = true := by
  simp [hasKey, List.any_append]

theorem insertOrReplace_twice {sid : String} {e1 e2 : Entry} {r : Registry}
    (h : hasKey sid r = false) :
    insertOrReplace sid e2 (insertOrReplace sid e1 r) = r ++ [(sid, e2)] := by
  rw [insertOrReplace_absent h]
  unfold insertOrReplace
  rw [hasKey_append_single]
  simp only [if_true, List.map_append]
  rw [map_replace_of_not_hasKey h]
  simp

theorem findEntry_map_replace {sid : String} {e : Entry} {r : Registry}
    (hk : hasKey sid r = true) :
    findEntry sid
      (r.map (fun p => if p.1 == sid then (sid, e) else p)) = some e := by
  induction r with
  | nil => simp [hasKey] at hk
  | cons p rest ih =>
    cases hp : (p.1 == sid) with
    | true =>
      have hps : p.1 = sid := by simpa using hp
      subst hps
      simp [findEntry, List.find?_cons]
    | false =>
      have hk' : hasKey sid rest = true := by
        simp only [hasKey, List.any_cons, hp, Bool.false_or] at hk
        exact hk
      simp only [List.map_cons, hp, Bool.false_eq_true, if_false,
        findEntry, List.find?_cons, hp]
      simpa [findEntry] using ih hk'

theorem findEntry_insertOrReplace_self (sid : String) (e : Entry)
    (r : Registry) :
    findEntry sid (insertOrReplace sid e r) = some e := by
  unfold insertOrReplace
  cases hk : hasKey sid r with
  | false =>
    simp only [Bool.false_eq_true, if_false]
    rw [findEntry_append_right hk]
    simp [findEntry, List.find?_cons]
  | true =>
    simp only [if_true]
    exact findEntry_map_replace hk

theorem countKey_eq_zero {sid : String} {r : Registry}
    (h : hasKey sid r = false) : countKey sid r = 0 := by
  unfold countKey
  rw [List.filter_eq_nil_iff.mpr]
  · rfl
  · intro p hp hcontra
    have : hasKey sid r = true := by
      simp only [hasKey, List.any_eq_true]
      exact ⟨p, hp, hcontra⟩
    rw [this] at h; cases h

theorem countKey_append_single (sid : String) (r : Registry) (e : Entry) :
    countKey sid (r ++ [(sid, e)]) = countKey sid r + 1 := by
  unfold countKey
  rw [List.filter_append]
  simp

/-! ## Claim theorems -/

/-- C3: The TTL pass of an eviction run removes exactly those handles with
`inFlight == 0` and `now - lastUsed` strictly greater than `ttlSeconds`,
regardless of current registry size (no size condition appears anywhere in
the statement); a handle touched within `ttlSeconds` is never removed by
the TTL pass. -/
theorem ttl_pass_removes_exactly_expired (now ttl : Int) (r : Registry)
    (p : String × Entry) (hp : p ∈ r) :
    (p ∈ (ttlPass now ttl r).1 ↔
      ¬(p.2.inFlight = 0 ∧ now - p.2.lastUsed > ttl)) ∧
    (p.2.inFlight = 0 ∧ now - p.2.lastUsed > ttl →
      p.2.res ∈ (ttlPass now ttl r).2) ∧
    (now - p.2.lastUsed ≤ ttl → p ∈ (ttlPass now ttl r).1) := by
  refine ⟨?_, ?_, ?_⟩
  · constructor
    · intro h
      exact ((ttlPass_mem_iff now ttl r p).mp h).2
    · intro h
      exact (ttlPass_mem_iff now ttl r p).mpr ⟨hp, h⟩
  · rintro ⟨hz, hl⟩
    exact (ttlPass_closed_iff now ttl r p.2.res).mpr ⟨p, hp, rfl, hz, hl⟩
  · intro h
    exact (ttlPass_mem_iff now ttl r p).mpr
      ⟨hp, fun hc => absurd hc.2 (not_lt.mpr h)⟩

/-- Witness for the C3 theorem: the stale entry of `staleReg` at
`now = 200`, `ttl = 10` — it is expired, so it is not kept, its
conversation is closed, and the touched-recently guard holds vacuously. -/
theorem ttl_pass_removes_exactly_expired_witness :
    (("A", ({ res := 1, lastUsed := 0, inFlight := 0 } : Entry)) ∈ staleReg) ∧
    ((("A", ({ res := 1, lastUsed := 0, inFlight := 0 } : Entry)) ∈
        (ttlPass 200 10 staleReg).1 ↔
      ¬((0 : Nat) = 0 ∧ (200 : Int) - 0 > 10)) ∧
    ((0 : Nat) = 0 ∧ (200 : Int) - 0 > 10 →
      1 ∈ (ttlPass 200 10 staleReg).2) ∧
    ((200 : Int) - 0 ≤ 10 →
      ("A", ({ res := 1, lastUsed := 0, inFlight := 0 } : Entry)) ∈
        (ttlPass 200 10 staleReg).1)) :=
  ⟨by decide,
   ttl_pass_removes_exactly_expired 200 10 staleReg
     ("A", { res := 1, lastUsed := 0, inFlight := 0 }) (by decide)⟩

/-- C4: a handle with a strictly positive `inFlight` counter survives the
whole eviction run — it is selected neither by the TTL pass (line 101
requires `in_flight == 0`) nor by the capacity pass (line 114 requires
`in_flight == 0`), even when it is least-recently-used and the registry is
over capacity. -/
theorem in_flight_never_evicted (now ttl : Int) (m : Nat) (r : Registry)
    (p : String × Entry) (hp : p ∈ r) (hf : 0 < p.2.inFlight) :
    p ∈ (evictStale now ttl m r).1 :=
  evictStale_keeps hp (Nat.pos_iff_ne_zero.mp hf)

/-- Witness for the C4 theorem: an in-flight session that is the LRU entry
of a registry over capacity (`maxSessions = 0`) and long past TTL still
survives the eviction run. -/
theorem in_flight_never_evicted_witness :
    (("A", ({ res := 7, lastUsed := 0, inFlight := 1 } : Entry)) ∈
      [("A", ({ res := 7, lastUsed := 0, inFlight := 1 } : Entry))]) ∧
    0 < 1 ∧
    ("A", ({ res := 7, lastUsed := 0, inFlight := 1 } : Entry)) ∈
      (evictStale 1000 10 0
        [("A", ({ res := 7, lastUsed := 0, inFlight := 1 } : Entry))]).1 :=
  ⟨by decide, by decide,
   in_flight_never_evicted 1000 10 0
     [("A", { res := 7, lastUsed := 0, inFlight := 1 })]
     ("A", { res := 7, lastUsed := 0, inFlight := 1 })
     (by decide) (by decide)⟩

/-- C5: after an eviction run, either the registry holds at most
`maxSessions` entries, or every surviving entry is in-flight (capacity may
be exceeded only in that case); and every conversation closed during the
run belonged to an idle (`inFlight = 0`) entry — capacity is never restored
by closing an in-flight handle. -/
theorem eviction_capacity_invariant (now ttl : Int) (m : Nat)
    (r : Registry) :
    ((evictStale now ttl m r).1.length ≤ m ∨
      ∀ p ∈ (evictStale now ttl m r).1, 0 < p.2.inFlight) ∧
    (∀ c ∈ (evictStale now ttl m r).2,
      ∃ p, p ∈ r ∧ p.2.res = c ∧ p.2.inFlight = 0) := by
  constructor
  · rw [evictStale_fst]
    rcases capacityPass_post m (ttlPass now ttl r).1 with h | h
    · exact Or.inl h
    · exact Or.inr (fun p hp => Nat.pos_of_ne_zero (h p hp))
  · exact evictStale_closed now ttl m r

theorem lruStep_foldl_keep (q : String × Entry) (l : List (String × Entry))
    (h : ∀ p ∈ l, q.2.lastUsed ≤ p.2.lastUsed) :
    l.foldl lruStep (some q) = some q := by
  induction l with
  | nil => rfl
  | cons p rest ih =>
    simp only [List.foldl_cons, lruStep]
    rw [if_neg (not_lt.mpr (h p (List.mem_cons_self p rest)))]
    exact ih (fun p' hp' => h p' (List.mem_cons_of_mem _ hp'))

theorem firstIdle_eq_specLruSelect_of_sorted {r : Registry}
    (hsort : r.Pairwise (fun p q => p.2.lastUsed ≤ q.2.lastUsed)) :
    firstIdle r = specLruSelect r := by
  induction r with
  | nil => rfl
  | cons p rest ih =>
    obtain ⟨hhead, htail⟩ := List.pairwise_cons.mp hsort
    cases hp : (p.2.inFlight == 0) with
    | true =>
      simp only [firstIdle, List.find?_cons, hp]
      simp only [specLruSelect, List.filter_cons, hp, if_true,
        List.foldl_cons, lruStep]
      exact (lruStep_foldl_keep p _
        (fun q hq => hhead q (List.mem_filter.mp hq).1)).symm
    | false =>
      simp only [firstIdle, List.find?_cons, hp]
      simp only [specLruSelect, List.filter_cons, hp, Bool.false_eq_true,
        if_false]
      exact ih htail

theorem removeFirstIdle_res_eq_firstIdle (r : Registry) :
    (removeFirstIdle r).map (fun cr => cr.1) =
      (firstIdle r).map (fun p => p.2.res) := by
  induction r with
  | nil => rfl
  | cons p rest ih =>
    cases hp : (p.2.inFlight == 0) with
    | true => simp [removeFirstIdle, firstIdle, List.find?_cons, hp]
    | false =>
      simp only [removeFirstIdle, hp, Bool.false_eq_true, if_false,
        firstIdle, List.find?_cons]
      cases hrec : removeFirstIdle rest with
      | some cr =>
        obtain ⟨c0, r0⟩ := cr
        rw [hrec] at ih
        simp only [hrec]
        simpa [firstIdle] using ih
      | none =>
        rw [hrec] at ih
        simp only [hrec]
        simpa [firstIdle] using ih

/-- C2 (amended): in the capacity pass the handle popped (and closed) at
each step is the FIRST entry in the registry's dict order with
`inFlight == 0` — dict order being insertion order refreshed by
`move_to_end` only on the `getOrCreate` fast path, not by the dispatch-time
`touch()` of line 230.  Whenever the dict order is consistent with
`lastUsed` order (as it is under purely sequential use), this coincides
with the spec's rule: strictly smallest `lastUsed` among idle entries, ties
broken by earlier insertion.  Selection is a pure function of the
snapshot, hence deterministic. -/
theorem capacity_selects_first_idle_in_order (r : Registry)
    (hsort : r.Pairwise (fun p q => p.2.lastUsed ≤ q.2.lastUsed)) :
    ((removeFirstIdle r).map (fun cr => cr.1) =
      (firstIdle r).map (fun p => p.2.res)) ∧
    firstIdle r = specLruSelect r :=
  ⟨removeFirstIdle_res_eq_firstIdle r, firstIdle_eq_specLruSelect_of_sorted hsort⟩

/-- Witness for the amended C2 theorem: a two-entry registry whose dict
order agrees with `lastUsed` order; the capacity selection is entry A,
which is also the spec-rule selection. -/
theorem capacity_selects_first_idle_in_order_witness :
    ([("A", ({ res := 1, lastUsed := 1, inFlight := 0 } : Entry)),
      ("B", ({ res := 2, lastUsed := 2, inFlight := 0 } : Entry))] :
        Registry).Pairwise (fun p q => p.2.lastUsed ≤ q.2.lastUsed) ∧
    (((removeFirstIdle
        [("A", ({ res := 1, lastUsed := 1, inFlight := 0 } : Entry)),
         ("B", ({ res := 2, lastUsed := 2, inFlight := 0 } : Entry))]).map
          (fun cr => cr.1) =
      (firstIdle
        [("A", ({ res := 1, lastUsed := 1, inFlight := 0 } : Entry)),
         ("B", ({ res := 2, lastUsed := 2, inFlight := 0 } : Entry))]).map
          (fun p => p.2.res)) ∧
    firstIdle
        [("A", ({ res := 1, lastUsed := 1, inFlight := 0 } : Entry)),
         ("B", ({ res := 2, lastUsed := 2, inFlight := 0 } : Entry))] =
      specLruSelect
        [("A", ({ res := 1, lastUsed := 1, inFlight := 0 } : Entry)),
         ("B", ({ res := 2, lastUsed := 2, inFlight := 0 } : Entry))]) :=
  ⟨by decide,
   capacity_selects_first_idle_in_order
     [("A", { res := 1, lastUsed := 1, inFlight := 0 }),
      ("B", { res := 2, lastUsed := 2, inFlight := 0 })] (by decide)⟩

/-- C2 (counterexample): a reachable registry state — produced by the legal
interleaving `c2Ops`, where session A's worker performs the line-230
`touch()` after session B's fast path ran — in which the capacity pass over
capacity (`maxSessions = 1`) closes conversation 1 (session A, the first
idle entry in dict order), although the claimed rule (strictly smallest
`lastUsed`, here session B with `lastUsed` 3 < 4) selects session B.  So
the capacity pass does not select by smallest `lastUsed`. -/
theorem capacity_lru_claim_counterexample :
    Reachable 100 1 c2State ∧
    (capacityPass 1 c2State).2 = [1] ∧
    firstIdle c2State =
      some ("A", { res := 1, lastUsed := 4, inFlight := 0 }) ∧
    specLruSelect c2State =
      some ("B", { res := 2, lastUsed := 3, inFlight := 0 }) :=
  ⟨⟨c2Ops, by decide⟩, by decide, by decide, by decide⟩

theorem hasKey_evictStale_false {sid : String} {now ttl : Int} {m : Nat}
    {r : Registry} (h : hasKey sid r = false) :
    hasKey sid (evictStale now ttl m r).1 = false := by
  cases hk : hasKey sid (evictStale now ttl m r).1 with
  | false => rfl
  | true =>
    obtain ⟨e, he⟩ := (hasKey_iff_exists _ _).mp hk
    have hmem := evictStale_subset now ttl m r _ he
    have : hasKey sid r = true := (hasKey_iff_exists _ _).mpr ⟨e, hmem⟩
    rw [this] at h
    cases h

/-- C1 (amended): when two creations race on the same fresh valid id, the
later registry insertion displaces the earlier entry under the structural
lock; the loser handle is discarded WITHOUT any `close()` call on its
conversation (the only `close()` calls in `_get_or_create_session` are the
eviction passes', which can only close conversations that were already
registered), the registry ends with exactly one entry for the id (bound to
the winner), and no error is surfaced to either caller. -/
theorem race_loser_discarded_without_close
    (validUUID : String → Bool) (sid : String) (res1 res2 : Nat)
    (now1 now2 ttl : Int) (m : Nat) (r : Registry)
    (habsent : hasKey sid (evictStale now1 ttl m r).1 = false)
    (hvalid : validUUID sid = true)
    (hfresh : ∀ p ∈ r, p.2.res ≠ res1) :
    (raceCreate validUUID sid res1 res2 now1 now2 ttl m r).2.2.1 =
      .ok sid ∧
    (raceCreate validUUID sid res1 res2 now1 now2 ttl m r).2.2.2 =
      .ok sid ∧
    (raceCreate validUUID sid res1 res2 now1 now2 ttl m r).2.1.count res1
      = 0 ∧
    countKey sid (raceCreate validUUID sid res1 res2 now1 now2 ttl m r).1
      = 1 ∧
    findEntry sid (raceCreate validUUID sid res1 res2 now1 now2 ttl m r).1
      = some { res := res2, lastUsed := now2, inFlight := 0 } := by
  have hB : hasKey sid (evictStale now2 ttl m
      (evictStale now1 ttl m r).1).1 = false :=
    hasKey_evictStale_false habsent
  simp only [raceCreate, habsent, Bool.false_eq_true, if_false, hvalid,
    Bool.not_true]
  refine ⟨trivial, trivial, ?_, ?_, ?_⟩
  · rw [List.count_eq_zero]
    intro hmem
    rcases List.mem_append.mp hmem with h | h
    · obtain ⟨p, hp, hres, _⟩ := evictStale_closed now1 ttl m r res1 h
      exact hfresh p hp hres
    · obtain ⟨p, hp, hres, _⟩ :=
        evictStale_closed now2 ttl m (evictStale now1 ttl m r).1 res1 h
      exact hfresh p (evictStale_subset now1 ttl m r p hp) hres
  · rw [insertOrReplace_twice hB, countKey_append_single,
      countKey_eq_zero hB]
  · rw [insertOrReplace_twice hB, findEntry_append_right hB]
    simp [findEntry, List.find?_cons]

/-- Witness for the amended C1 theorem: the race executed from the empty
registry with id "S": both callers get `ok`, the loser conversation 10 is
closed zero times, and "S" is bound once, to the winner conversation 20. -/
theorem race_loser_discarded_without_close_witness :
    hasKey "S" (evictStale 5 100 2 []).1 = false ∧
    (fun _ : String => true) "S" = true ∧
    ((raceCreate (fun _ => true) "S" 10 20 5 6 100 2 []).2.2.1 =
      .ok "S" ∧
    (raceCreate (fun _ => true) "S" 10 20 5 6 100 2 []).2.2.2 =
      .ok "S" ∧
    (raceCreate (fun _ => true) "S" 10 20 5 6 100 2 []).2.1.count 10 = 0 ∧
    countKey "S" (raceCreate (fun _ => true) "S" 10 20 5 6 100 2 []).1
      = 1 ∧
    findEntry "S" (raceCreate (fun _ => true) "S" 10 20 5 6 100 2 []).1
      = some { res := 20, lastUsed := 6, inFlight := 0 }) := by
  refine ⟨by decide, rfl, ?_⟩
  have h :=
    race_loser_discarded_without_close (fun _ => true) "S" 10 20 5 6 100 2 []
      (by decide) rfl (by intro p hp; cases hp)
  exact ⟨h.1, h.2.1, h.2.2.1, h.2.2.2.1, h.2.2.2.2⟩

/-- C1 (counterexample): in the creation race on fresh id "S" (conversation
tags 10 then 20) the displaced loser's conversation receives ZERO `close()`
calls — not the exactly one that the claim states; the registry does end
with a single entry and both callers succeed. -/
theorem race_loser_close_counterexample :
    (raceCreate (fun _ => true) "S" 10 20 5 6 100 2 []).2.1.count 10 = 0 ∧
    (raceCreate (fun _ => true) "S" 10 20 5 6 100 2 []).2.1.count 10 ≠ 1 ∧
    (raceCreate (fun _ => true) "S" 10 20 5 6 100 2 []).1 =
      [("S", { res := 20, lastUsed := 6, inFlight := 0 })] ∧
    (raceCreate (fun _ => true) "S" 10 20 5 6 100 2 []).2.2.1 = .ok "S" ∧
    (raceCreate (fun _ => true) "S" 10 20 5 6 100 2 []).2.2.2 = .ok "S" :=
  ⟨by decide, by decide, by decide, by decide, by decide⟩

/-- C6: `_run_sync` pairs its `acquire_flight()` with exactly one
`release_flight()` (the `finally:` of lines 234-235) and the `with
entry.lock:` releases the mutex on every exit path, so after the worker
completes — body success or body exception — `inFlight` equals its
pre-call value and the lock is free; and whether the awaiting caller timed
out (`asyncio.wait_for`) makes no difference to the resulting registry
state, because nothing cancels the worker. -/
theorem flight_and_lock_always_released (now : Int) (e : Entry)
    (body : BodyOutcome) (validUUID : String → Bool) (newRes : Nat)
    (newSid : String) (ttl : Int) (m : Nat) (sessionId : Option String)
    (r : Registry) :
    (runSync now e body).1.inFlight = e.inFlight ∧
    (runSync now e body).1.lockHeld = false ∧
    ∀ timedOut : Bool,
      (chatEndpoint validUUID newRes newSid now ttl m sessionId body
        timedOut r).1 =
      (chatEndpoint validUUID newRes newSid now ttl m sessionId body
        false r).1 := by
  refine ⟨by simp [runSync, Entry.touch], rfl, ?_⟩
  intro timedOut
  cases timedOut with
  | false => rfl
  | true =>
    unfold chatEndpoint
    rcases hg : getOrCreate validUUID newRes newSid now ttl m sessionId r
      with ⟨r1, closes, res⟩
    cases res with
    | invalidArg => rfl
    | ok sid =>
      simp only
      cases hf : findEntry sid r1 with
      | none => rfl
      | some e0 =>
        simp only
        cases body with
        | success reply => rfl
        | failure msg => rfl

/-- C7 (amended): a supplied non-empty id that is absent from the registry
(after the eviction pass that `_get_or_create_session` always runs first,
line 139) and does not parse as a UUID fails with `InvalidArgument`
(HTTP 400) BEFORE the `Conversation` factory runs; nothing is inserted —
the post-call registry is exactly the eviction pass's output, so when
nothing was evictable the registry is unchanged. -/
theorem invalid_id_rejected_before_factory
    (validUUID : String → Bool) (newRes : Nat) (newSid : String)
    (now ttl : Int) (m : Nat) (sid : String) (r : Registry)
    (hne : sid ≠ "")
    (hinvalid : validUUID sid = false)
    (habsent : hasKey sid (evictStale now ttl m r).1 = false) :
    getOrCreate validUUID newRes newSid now ttl m (some sid) r =
      ((evictStale now ttl m r).1, (evictStale now ttl m r).2,
       .invalidArg) ∧
    Act.factory ∉ getOrCreateTraceA validUUID now ttl m (some sid) r ∧
    ((evictStale now ttl m r).1 = r →
      (getOrCreate validUUID newRes newSid now ttl m (some sid) r).1 = r) := by
  have htr : truthy (some sid) = true := by
    simp [truthy, hne]
  have h1 : getOrCreate validUUID newRes newSid now ttl m (some sid) r =
      ((evictStale now ttl m r).1, (evictStale now ttl m r).2,
       .invalidArg) := by
    simp only [getOrCreate, htr, habsent, Bool.true_and, Bool.false_eq_true,
      if_false, hinvalid, Bool.not_false, if_true, Option.getD_some]
  refine ⟨h1, ?_, ?_⟩
  · simp only [getOrCreateTraceA, evictTraceA, htr, habsent, hinvalid,
      Option.getD_some, Bool.true_and, Bool.not_false, Bool.false_eq_true,
      if_false, if_true, List.append_nil]
    simp [List.mem_append, List.mem_map]
  · intro h
    rw [h1, h]

/-- Witness for the amended C7 theorem: id "x" (non-empty, not a UUID) on
the empty registry: the call returns `InvalidArgument`, produces no
factory action, and leaves the registry unchanged. -/
theorem invalid_id_rejected_before_factory_witness :
    "x" ≠ "" ∧
    (fun _ : String => false) "x" = false ∧
    hasKey "x" (evictStale 7 100 5 []).1 = false ∧
    (getOrCreate (fun _ => false) 9 "N" 7 100 5 (some "x") [] =
      ((evictStale 7 100 5 []).1, (evictStale 7 100 5 []).2,
       .invalidArg) ∧
    Act.factory ∉ getOrCreateTraceA (fun _ => false) 7 100 5 (some "x") [] ∧
    ((evictStale 7 100 5 []).1 = [] →
      (getOrCreate (fun _ => false) 9 "N" 7 100 5 (some "x") []).1 = [])) :=
  ⟨by decide, rfl, by decide,
   invalid_id_rejected_before_factory (fun _ => false) 9 "N" 7 100 5 "x" []
     (by decide) rfl (by decide)⟩

/-- C7 (counterexample): the claim fails in two ways.  (1) With a stale
idle session registered, the failed call `getOrCreate "not-a-uuid"` does
return `InvalidArgument` but CHANGES the registry: the eviction pass that
runs first (line 139) removes the stale entry.  (2) The supplied malformed
id `""` (absent, not a UUID) is falsy in Python, so lines 142 and 150 skip
both lookup and validation: the call creates and registers a brand-new
session instead of failing with `InvalidArgument`. -/
theorem invalid_id_claim_counterexample :
    ((getOrCreate (fun _ => false) 9 "N" 100 10 5 (some "not-a-uuid")
        staleReg).2.2 = .invalidArg) ∧
    ((getOrCreate (fun _ => false) 9 "N" 100 10 5 (some "not-a-uuid")
        staleReg).1 ≠ staleReg) ∧
    ((getOrCreate (fun _ => false) 9 "N" 100 10 5 (some "") []).2.2 =
      .ok "N") ∧
    ((getOrCreate (fun _ => false) 9 "N" 100 10 5 (some "") []).1 ≠ []) :=
  ⟨by decide, by decide, by decide, by decide⟩

theorem getOrCreate_ok_entry {v : String → Bool} {nR : Nat} {nS : String}
    {now ttl : Int} {m : Nat} {sessionId : Option String} {r : Registry}
    {sid : String}
    (hok : (getOrCreate v nR nS now ttl m sessionId r).2.2 = .ok sid) :
    ∃ e, findEntry sid (getOrCreate v nR nS now ttl m sessionId r).1 =
      some e ∧ e.lastUsed = now := by
  by_cases hc1 : (truthy sessionId &&
      hasKey (sessionId.getD "") (evictStale now ttl m r).1) = true
  · unfold getOrCreate at hok ⊢
    rw [if_pos hc1] at hok ⊢
    simp only at hok ⊢
    have hsid : sessionId.getD "" = sid := by
      simpa using hok
    subst hsid
    have hkey : hasKey (sessionId.getD "") (evictStale now ttl m r).1 =
        true := by
      cases htv : truthy sessionId with
      | false => rw [htv] at hc1; simp at hc1
      | true => rw [htv] at hc1; simpa using hc1
    obtain ⟨e1, he1⟩ := findEntry_of_hasKey hkey
    refine ⟨e1.touch now, ?_, rfl⟩
    rw [findEntry_updateEntry_self, findEntry_moveToEnd_self he1]
    rfl
  · by_cases hc2 : (truthy sessionId &&
        !v (sessionId.getD "")) = true
    · unfold getOrCreate at hok
      rw [if_neg hc1, if_pos hc2] at hok
      simp only at hok
      cases hok
    · unfold getOrCreate at hok ⊢
      rw [if_neg hc1, if_neg hc2] at hok ⊢
      simp only at hok ⊢
      have hsid : (if truthy sessionId = true then sessionId.getD "" else nS)
          = sid := by
        simpa using hok
      subst hsid
      exact ⟨_, findEntry_insertOrReplace_self _ _ _, rfl⟩

theorem chatEndpoint_timeout_eq {v : String → Bool} {nR : Nat} {nS : String}
    {now ttl : Int} {m : Nat} {sessionId : Option String}
    {r : Registry} {sid : String} {e : Entry} (body : BodyOutcome)
    (hok : (getOrCreate v nR nS now ttl m sessionId r).2.2 = .ok sid)
    (hfind : findEntry sid (getOrCreate v nR nS now ttl m sessionId r).1 =
      some e) :
    chatEndpoint v nR nS now ttl m sessionId body true r =
      (updateEntry sid (fun _ => (runSync now e body).1)
        (getOrCreate v nR nS now ttl m sessionId r).1, .timeout) := by
  unfold chatEndpoint
  rcases hg : getOrCreate v nR nS now ttl m sessionId r with ⟨r1, closes, res⟩
  rw [hg] at hok hfind
  simp only at hok hfind
  cases res with
  | invalidArg => cases hok
  | ok sid0 =>
    have : sid0 = sid := by simpa using hok
    subst this
    simp [hfind]

theorem hasKey_evictStale_recent {sid : String} {r2 : Registry} {e : Entry}
    {now' ttl : Int} {m : Nat}
    (hfind : findEntry sid r2 = some e)
    (hts : now' - e.lastUsed ≤ ttl)
    (hlen : r2.length ≤ m) :
    hasKey sid (evictStale now' ttl m r2).1 = true := by
  have hmem : (sid, e) ∈ r2 := findEntry_mem hfind
  have hkept : (sid, e) ∈ (ttlPass now' ttl r2).1 :=
    (ttlPass_mem_iff now' ttl r2 (sid, e)).mpr
      ⟨hmem, fun hc => absurd hc.2 (not_lt.mpr hts)⟩
  have hlen2 : ¬(ttlPass now' ttl r2).1.length > m :=
    Nat.not_lt.mpr (le_trans (ttlPass_length_le now' ttl r2) hlen)
  rw [evictStale_fst, capacityPass_eq_of_le hlen2]
  exact (hasKey_iff_exists _ _).mpr ⟨e, hkept⟩

theorem chatEndpoint_fast_success (v : String → Bool) (nR : Nat)
    (nS : String) (now ttl : Int) (m : Nat) (sid reply : String)
    (r : Registry) (hne : sid ≠ "")
    (hkey : hasKey sid (evictStale now ttl m r).1 = true) :
    (chatEndpoint v nR nS now ttl m (some sid) (.success reply) false r).2 =
      .ok reply sid := by
  have htr : truthy (some sid) = true := by simp [truthy, hne]
  have hc1 : (truthy (some sid) &&
      hasKey ((some sid).getD "") (evictStale now ttl m r).1) = true := by
    rw [htr, Option.getD_some, hkey]
    rfl
  obtain ⟨e1, he1⟩ := findEntry_of_hasKey hkey
  have hfind : findEntry sid
      (getOrCreate v nR nS now ttl m (some sid) r).1 =
      some (e1.touch now) := by
    unfold getOrCreate
    rw [if_pos hc1]
    simp only [Option.getD_some]
    rw [findEntry_updateEntry_self, findEntry_moveToEnd_self he1]
    rfl
  have hok : (getOrCreate v nR nS now ttl m (some sid) r).2.2 =
      .ok sid := by
    unfold getOrCreate
    rw [if_pos hc1]
    rfl
  unfold chatEndpoint
  rcases hg : getOrCreate v nR nS now ttl m (some sid) r
    with ⟨r1, closes, res⟩
  rw [hg] at hok hfind
  simp only at hok hfind
  cases res with
  | invalidArg => cases hok
  | ok sid0 =>
    have : sid0 = sid := by simpa using hok
    subst this
    simp [hfind, runSync]

/-- C8: when the deadline elapses before the critical section completes,
`chat` returns the dedicated `Timeout` result (`HTTPException(504)`, a
constructor distinct from the 400 and service-error results), the session
stays registered (the timeout path never touches the registry), and a
later `chat` on the same id — within TTL and with the registry within
capacity — takes the fast path and succeeds normally. -/
theorem timeout_leaves_session_usable
    (validUUID : String → Bool) (nR : Nat) (nS : String)
    (now ttl : Int) (m : Nat) (sessionId : Option String)
    (body : BodyOutcome) (r : Registry) (sid : String)
    (hok : (getOrCreate validUUID nR nS now ttl m sessionId r).2.2 =
      .ok sid)
    (hne : sid ≠ "") (now' : Int) (hts : now' - now ≤ ttl)
    (hcap : (chatEndpoint validUUID nR nS now ttl m sessionId body
      true r).1.length ≤ m)
    (nR2 : Nat) (nS2 : String) (reply2 : String) :
    (chatEndpoint validUUID nR nS now ttl m sessionId body true r).2 =
      .timeout ∧
    hasKey sid
      (chatEndpoint validUUID nR nS now ttl m sessionId body true r).1 =
      true ∧
    (chatEndpoint validUUID nR2 nS2 now' ttl m (some sid)
      (.success reply2) false
      (chatEndpoint validUUID nR nS now ttl m sessionId body true r).1).2 =
      .ok reply2 sid := by
  obtain ⟨e, hfind, hlast⟩ := getOrCreate_ok_entry hok
  have h1 := chatEndpoint_timeout_eq body hok hfind
  have hfind2 : findEntry sid
      (chatEndpoint validUUID nR nS now ttl m sessionId body true r).1 =
      some (runSync now e body).1 := by
    rw [h1]
    simp only
    rw [findEntry_updateEntry_self, hfind]
    rfl
  have hlast2 : (runSync now e body).1.lastUsed = now := by
    simp [runSync, Entry.touch]
  refine ⟨by rw [h1], hasKey_of_findEntry hfind2, ?_⟩
  have hkey2 : hasKey sid (evictStale now' ttl m
      (chatEndpoint validUUID nR nS now ttl m sessionId body true r).1).1 =
      true :=
    hasKey_evictStale_recent hfind2 (by rw [hlast2]; exact hts) hcap
  exact chatEndpoint_fast_success validUUID nR2 nS2 now' ttl m sid reply2 _
    hne hkey2

theorem underLock_closes_prefix (cs : List Nat) (rest : List Act) :
    underLock (cs.map Act.close ++ rest) 1 =
      cs.map Act.close ++ underLock rest 1 := by
  induction cs with
  | nil => rfl
  | cons c cs ih => simp [underLock, ih]

theorem underLock_chatTrace (v : String → Bool) (now ttl : Int) (m : Nat)
    (sessionId : Option String) (r : Registry) :
    underLock (chatTraceA v now ttl m sessionId r) 0 =
      (evictStale now ttl m r).2.map Act.close := by
  unfold chatTraceA getOrCreateTraceA evictTraceA
  by_cases h1 : (truthy sessionId &&
      hasKey (sessionId.getD "") (evictStale now ttl m r).1) = true
  · have h2 : (truthy sessionId &&
        !hasKey (sessionId.getD "") (evictStale now ttl m r).1 &&
        !v (sessionId.getD "")) = false := by
      cases ht : truthy sessionId with
      | false => rw [ht] at h1; simp at h1
      | true =>
        rw [ht] at h1
        simp only [Bool.true_and] at h1
        simp [h1]
    simp only [h1, if_true, h2, Bool.false_eq_true, if_false]
    simp [underLock, underLock_closes_prefix]
  · by_cases h3 : (truthy sessionId && !v (sessionId.getD "")) = true
    · have h2 : (truthy sessionId &&
          !hasKey (sessionId.getD "") (evictStale now ttl m r).1 &&
          !v (sessionId.getD "")) = true := by
        cases ht : truthy sessionId with
        | false => rw [ht] at h3; simp at h3
        | true =>
          rw [ht] at h1 h3
          simp only [Bool.true_and] at h1 h3
          simp [Bool.of_not_eq_true h1, h3]
      simp only [h1, Bool.false_eq_true, if_false, h3, if_true, h2]
      simp [underLock, underLock_closes_prefix]
    · have h2 : (truthy sessionId &&
          !hasKey (sessionId.getD "") (evictStale now ttl m r).1 &&
          !v (sessionId.getD "")) = false := by
        cases ht : truthy sessionId with
        | false => simp [ht]
        | true =>
          rw [ht] at h3
          simp only [Bool.true_and] at h3
          simp [ht, h3]
      simp only [h1, h3, Bool.false_eq_true, if_false, h2]
      simp [underLock, underLock_closes_prefix]

/-- C9 (amended): the structural lock `_sessions_lock` is held for the map
mutations AND across the `conversation.close()` calls of the eviction
passes and of shutdown's `_close_all_sessions` (the `close()` calls sit
inside the `with _sessions_lock:` blocks, lines 96-123 and 128-134); it is
never held across the `Conversation(...)` factory call (line 148 comment:
"outside global lock") or across `send_message`/`run`, which run under the
per-session `entry.lock` only. -/
theorem structural_lock_discipline (v : String → Bool) (now ttl : Int)
    (m : Nat) (sessionId : Option String) (r r2 : Registry) :
    underLock (chatTraceA v now ttl m sessionId r) 0 =
      (evictStale now ttl m r).2.map Act.close ∧
    underLock (closeAllTraceA r2) 0 = (closeAll r2).2.map Act.close ∧
    Act.factory ∉ underLock (chatTraceA v now ttl m sessionId r) 0 ∧
    Act.sendRun ∉ underLock (chatTraceA v now ttl m sessionId r) 0 := by
  have h1 := underLock_chatTrace v now ttl m sessionId r
  refine ⟨h1, ?_, ?_, ?_⟩
  · unfold closeAllTraceA
    have := underLock_closes_prefix (closeAll r2).2 [Act.relS]
    simp [underLock] at this ⊢
    simpa using this
  · rw [h1]
    simp
  · rw [h1]
    simp

/-- C9 (counterexample): on a registry holding one stale idle session, the
eviction run pops it and calls `close()` on its conversation while
`_sessions_lock` is held (lock depth 1), and shutdown's
`_close_all_sessions` likewise closes under the lock — the structural lock
IS held across resource `close()` operations, contradicting the claim that
it is held only for map mutations. -/
theorem structural_lock_claim_counterexample :
    Act.close 1 ∈ underLock (evictTraceA 100 10 5 staleReg) 0 ∧
    underLock (closeAllTraceA staleReg) 0 = [Act.close 1] :=
  ⟨by decide, by decide⟩

/-- C10: `get_session` reports an id absent from the in-memory registry as
existing exactly when it parses as a UUID and its persistence directory
exists on disk; a non-parsing absent id gets `InvalidArgument` (400), a
parsing absent id without a persistence directory gets not-found (404); an
id present in the registry is reported as existing with no validation at
all; and the handler leaves the registry — contents and order — untouched
(its only access is the membership test of line 262). -/
theorem get_session_status (validUUID persistExists : String → Bool)
    (sid : String) (r : Registry) :
    (getSession validUUID persistExists sid r).1 = r ∧
    ((getSession validUUID persistExists sid r).2 = .exists_ sid ↔
      (hasKey sid r = true ∨
        (validUUID sid = true ∧ persistExists sid = true))) ∧
    ((getSession validUUID persistExists sid r).2 = .invalidArg ↔
      (hasKey sid r = false ∧ validUUID sid = false)) ∧
    ((getSession validUUID persistExists sid r).2 = .notFound ↔
      (hasKey sid r = false ∧ validUUID sid = true ∧
        persistExists sid = false)) ∧
    (hasKey sid r = true →
      (getSession validUUID persistExists sid r).2 = .exists_ sid) := by
  unfold getSession
  cases hk : hasKey sid r <;> cases hv : validUUID sid <;>
    cases hp : persistExists sid <;> simp

/-- Witness for the C5 theorem: evicting `staleReg` with `maxSessions = 0`
at `now = 100`, `ttl = 10`. -/
theorem eviction_capacity_invariant_witness :
    ((evictStale 100 10 0 staleReg).1.length ≤ 0 ∨
      ∀ p ∈ (evictStale 100 10 0 staleReg).1, 0 < p.2.inFlight) ∧
    (∀ c ∈ (evictStale 100 10 0 staleReg).2,
      ∃ p, p ∈ staleReg ∧ p.2.res = c ∧ p.2.inFlight = 0) :=
  eviction_capacity_invariant 100 10 0 staleReg

/-- Witness for the C6 theorem: a concrete entry with two requests already
in flight, a failing body, on the empty registry. -/
theorem flight_and_lock_always_released_witness :
    (runSync 0 { res := 3, lastUsed := 5, inFlight := 2 }
      (.failure "err")).1.inFlight = 2 ∧
    (runSync 0 { res := 3, lastUsed := 5, inFlight := 2 }
      (.failure "err")).1.lockHeld = false ∧
    ∀ timedOut : Bool,
      (chatEndpoint (fun _ => true) 1 "N" 0 10 5 none (.failure "err")
        timedOut []).1 =
      (chatEndpoint (fun _ => true) 1 "N" 0 10 5 none (.failure "err")
        false []).1 :=
  flight_and_lock_always_released 0
    { res := 3, lastUsed := 5, inFlight := 2 } (.failure "err")
    (fun _ => true) 1 "N" 10 5 none []

/-- Witness for the C8 theorem: session "A" created at `now = 0`, its
dispatch abandoned by timeout; at `now' = 50` (within `ttl = 100`) a new
dispatch on "A" succeeds. -/
theorem timeout_leaves_session_usable_witness :
    ((getOrCreate (fun _ => true) 1 "N" 0 100 5 (some "A") []).2.2 =
      .ok "A") ∧
    ("A" : String) ≠ "" ∧
    ((50 : Int) - 0 ≤ 100) ∧
    ((chatEndpoint (fun _ => true) 1 "N" 0 100 5 (some "A")
      (.success "hi") true []).1.length ≤ 5) ∧
    (((chatEndpoint (fun _ => true) 1 "N" 0 100 5 (some "A")
        (.success "hi") true []).2 = .timeout) ∧
    hasKey "A" (chatEndpoint (fun _ => true) 1 "N" 0 100 5 (some "A")
      (.success "hi") true []).1 = true ∧
    (chatEndpoint (fun _ => true) 2 "M" 50 100 5 (some "A")
      (.success "again") false
      (chatEndpoint (fun _ => true) 1 "N" 0 100 5 (some "A")
        (.success "hi") true []).1).2 = .ok "again" "A") :=
  ⟨by decide, by decide, by decide, by decide,
   timeout_leaves_session_usable (fun _ => true) 1 "N" 0 100 5 (some "A")
     (.success "hi") [] "A" (by decide) (by decide) 50 (by decide)
     (by decide) 2 "M" "again"⟩

/-- Witness for the amended C9 theorem: the lock-discipline equations at a
concrete chat call and shutdown over `staleReg`. -/
theorem structural_lock_discipline_witness :
    underLock (chatTraceA (fun _ => true) 100 10 5 none staleReg) 0 =
      (evictStale 100 10 5 staleReg).2.map Act.close ∧
    underLock (closeAllTraceA staleReg) 0 =
      (closeAll staleReg).2.map Act.close ∧
    Act.factory ∉ underLock (chatTraceA (fun _ => true) 100 10 5 none
      staleReg) 0 ∧
    Act.sendRun ∉ underLock (chatTraceA (fun _ => true) 100 10 5 none
      staleReg) 0 :=
  structural_lock_discipline (fun _ => true) 100 10 5 none staleReg staleReg

/-- Witness for the C10 theorem: a registry-resident id, reported existing
although the UUID predicate rejects it. -/
theorem get_session_status_witness :
    (getSession (fun _ => false) (fun _ => false) "A" staleReg).1 =
      staleReg ∧
    ((getSession (fun _ => false) (fun _ => false) "A" staleReg).2 =
        .exists_ "A" ↔
      (hasKey "A" staleReg = true ∨
        ((fun _ : String => false) "A" = true ∧
          (fun _ : String => false) "A" = true))) ∧
    ((getSession (fun _ => false) (fun _ => false) "A" staleReg).2 =
        .invalidArg ↔
      (hasKey "A" staleReg = false ∧
        (fun _ : String => false) "A" = false)) ∧
    ((getSession (fun _ => false) (fun _ => false) "A" staleReg).2 =
        .notFound ↔
      (hasKey "A" staleReg = false ∧
        (fun _ : String => false) "A" = true ∧
        (fun _ : String => false) "A" = false)) ∧
    (hasKey "A" staleReg = true →
      (getSession (fun _ => false) (fun _ => false) "A" staleReg).2 =
        .exists_ "A") :=
  get_session_status (fun _ => false) (fun _ => false) "A" staleReg

end DashSession
